import Mathlib

/-!
Verification of the Dynamic Mock Server (`src/index.js`).

The file shallowly embeds the server's pure core: JSON values are modelled
by `JSValue`, with numbers as integers (every numeric value this program
manipulates — HTTP statuses, epoch timestamps, window lengths — is
integral).  A JavaScript value that may be `undefined` is modelled as
`Option JSValue` (`none` = `undefined`).  A thrown exception is modelled by
`Except Unit`.  The `routes` and `lastRequest` `Map`s are insertion-ordered
association lists mutated through `mapSet`, the model of `Map.set`.
-/

inductive JSValue : Type where
  | null : JSValue
  | bool : Bool → JSValue
  | num : Int → JSValue
  | str : String → JSValue
  | arr : List JSValue → JSValue
  | obj : List (String × JSValue) → JSValue

/-- JavaScript truthiness of a defined value. -/
def jsTruthyV : JSValue → Bool
  | .null => false
  | .bool b => b
  | .num n => n != 0
  | .str s => s != ""
  | .arr _ => true
  | .obj _ => true

/-- JavaScript truthiness of a possibly-`undefined` value. -/
def jsTruthy : Option JSValue → Bool
  | none => false
  | some v => jsTruthyV v

/-- `a || b` where the left operand may be `undefined`. -/
def jsOr (a : Option JSValue) (b : JSValue) : JSValue :=
  match a with
  | none => b
  | some v => if jsTruthyV v then v else b

/-- Property access `v[k]`, as the snapshot loader performs it: a
`TypeError` is thrown on `null`; objects yield the field (or `undefined`);
the remaining values yield `undefined` (none of the accessed names is a
built-in property of a primitive or an array). -/
def objGet : JSValue → String → Except Unit (Option JSValue)
  | .null, _ => .error ()
  | .obj fields, k => .ok (fields.lookup k)
  | _, _ => .ok none

/-- `String.prototype.toUpperCase`, on the basic-latin alphabet (the only
characters an HTTP verb uses). -/
def jsToUpperCase (s : String) : String :=
  ⟨s.data.map Char.toUpper⟩

/-- `String.prototype.startsWith`. -/
def jsStartsWith (s pat : String) : Bool :=
  pat.data.isPrefixOf s.data

/-- Decimal digit value of a character, if any. -/
def digitVal (c : Char) : Option Nat :=
  if c.toNat ≥ 48 ∧ c.toNat ≤ 57 then some (c.toNat - 48) else none

/-- Accumulating decimal read of a digit string (`none` on a non-digit). -/
def digitsToNat (cs : List Char) (acc : Nat) : Option Nat :=
  match cs with
  | [] => some acc
  | c :: rest =>
    match digitVal c with
    | some d => digitsToNat rest (acc * 10 + d)
    | none => none

/-- `Number(s)` on a string: whitespace-trimmed; empty means 0; otherwise
an optionally signed decimal numeral.  Fractional, exponent and radix forms
— which no HTTP status uses — are conservatively `NaN` (`none`). -/
def jsStringToNumber (s : String) : Option Int :=
  let cs := ((s.data.dropWhile Char.isWhitespace).reverse.dropWhile Char.isWhitespace).reverse
  match cs with
  | [] => some 0
  | '-' :: rest => if rest = [] then none else (digitsToNat rest 0).map (fun n => -(n : Int))
  | '+' :: rest => if rest = [] then none else (digitsToNat rest 0).map (fun n => (n : Int))
  | _ => (digitsToNat cs 0).map (fun n => (n : Int))

/-- `Number(x)` coercion (`none` = `NaN`), with an integral model of string
numerals; coercion of composite values through their string form is modelled
conservatively as `NaN`. -/
def jsToNumberV : JSValue → Option Int
  | .null => some 0
  | .bool b => some (if b then 1 else 0)
  | .num n => some n
  | .str s => jsStringToNumber s
  | .arr _ => none
  | .obj _ => none

mutual

/-- `String(v)` coercion of a defined value. -/
def jsToStringV : JSValue → String
  | .null => "null"
  | .bool b => if b then "true" else "false"
  | .num n => toString n
  | .str s => s
  | .arr xs => joinElems xs
  | .obj _ => "[object Object]"

/-- `Array.prototype.join(',')` as used by array-to-string coercion
(`null` elements render empty). -/
def joinElems : List JSValue → String
  | [] => ""
  | [JSValue.null] => ""
  | [e] => jsToStringV e
  | JSValue.null :: rest => "," ++ joinElems rest
  | e :: rest => jsToStringV e ++ "," ++ joinElems rest

end

/-- `String(v)` coercion where `v` may be `undefined`. -/
def jsToString : Option JSValue → String
  | none => "undefined"
  | some v => jsToStringV v

/-- `normalizePath` (src/index.js:71-75); `!p` on a string is the test for
emptiness. -/
def normalizePath (p : String) : String :=
  if p = "" then "/"
  else if !jsStartsWith p "/" then "/" ++ p
  else p

/-- One stored route entry: the object placed into the `routes` map.
`response` may be `undefined` (a snapshot record can lack the field);
`status` and `headers` are always present but arbitrary JSON values. -/
structure MockDef : Type where
  method : String
  path : String
  status : JSValue
  response : Option JSValue
  headers : JSValue

/-- The in-memory `routes` map (key = `` `${method} ${path}` ``). -/
abbrev Table := List (String × MockDef)

/-- `Map.prototype.set`: replace the value in place when the key exists,
append otherwise. -/
def mapSet (t : List (String × α)) (k : String) (v : α) : List (String × α) :=
  if (t.lookup k).isSome then
    t.map (fun kv => if kv.1 = k then (k, v) else kv)
  else t ++ [(k, v)]

inductive RespBody : Type where
  | json : JSValue → RespBody
  | text : String → RespBody

/-- An HTTP response as the handlers build it: the status passed to
`res.status` (kept as the raw stored value), the headers explicitly set via
`res.set`, and the rendered body. -/
structure HttpResponse : Type where
  status : JSValue
  headers : List (String × String)
  body : RespBody

/-- The destructured body of a `POST /register` request.  `path` and
`method` are typed as the spec types them (strings when present);
`response`, `status` and `headers` may be arbitrary JSON values. -/
structure RegisterBody : Type where
  path : Option String
  method : Option String
  response : Option JSValue
  status : Option JSValue
  headers : Option JSValue

/-- Truthiness of the possibly-`undefined` string `path` (`!path`). -/
def strTruthy : Option String → Bool
  | none => false
  | some s => s != ""

/-- `Number(status) || 200` applied after the destructuring default
`status = 200` (src/index.js:106,114). -/
def numberOr200 (st : Option JSValue) : Int :=
  match jsToNumberV (st.getD (.num 200)) with
  | none => 200
  | some n => if n = 0 then 200 else n

structure RegisterResult : Type where
  resp : HttpResponse
  table : Table
  persistAttempted : Bool

/-- The `POST /register` handler (src/index.js:105-124).  `persistOk` says
whether the `persistRoutes` write succeeds when attempted. -/
def register (t : Table) (b : RegisterBody) (persistOk : Bool) : RegisterResult :=
  if !strTruthy b.path || b.response.isNone then
    ⟨⟨.num 400, [], .json (.obj [("error", .str "path and response required")])⟩, t, false⟩
  else
    let p := normalizePath (b.path.getD "")
    let m := jsToUpperCase (b.method.getD "GET")
    let key := m ++ " " ++ p
    let t2 := mapSet t key ⟨m, p, .num (numberOr200 b.status), b.response, b.headers.getD (.obj [])⟩
    if persistOk then
      ⟨⟨.num 200, [],
        .json (.obj [("message", .str "Registered"), ("method", .str m), ("path", .str p)])⟩,
        t2, true⟩
    else
      ⟨⟨.num 500, [], .json (.obj [("error", .str "Failed to persist route")])⟩, t2, true⟩

/-- A sequence of `POST /register` calls (each persist succeeding),
starting from table `t`. -/
def applyRegs (t : Table) : List RegisterBody → Table
  | [] => t
  | b :: rest => applyRegs (register t b true).table rest

/-- `(item.method || 'GET').toUpperCase()`: throws unless the defaulted
value is a string. -/
def methodOfItem (m : Option JSValue) : Except Unit String :=
  match jsOr m (.str "GET") with
  | .str s => .ok (jsToUpperCase s)
  | _ => .error ()

/-- `normalizePath(item.path)` on a raw JSON value: `!p` is truthiness, and
`p.startsWith` throws unless `p` is a string. -/
def pathOfItem (p : Option JSValue) : Except Unit String :=
  if jsTruthy p = false then .ok "/"
  else match p with
    | some (.str s) => .ok (normalizePath s)
    | _ => .error ()

/-- Reading one snapshot record (the loop body at src/index.js:44-54);
`Except` models a thrown `TypeError`. -/
def loadItem (it : JSValue) : Except Unit MockDef := do
  let mRaw ← objGet it "method"
  let m ← methodOfItem mRaw
  let pRaw ← objGet it "path"
  let p ← pathOfItem pRaw
  let sRaw ← objGet it "status"
  let rRaw ← objGet it "response"
  let hRaw ← objGet it "headers"
  pure ⟨m, p, jsOr sRaw (.num 200), rRaw, jsOr hRaw (.obj [])⟩

/-- What `loadRoutes` finds: a missing file, an unreadable file, a file that
does not parse as JSON, or the parsed JSON value. -/
inductive LoadSource : Type where
  | absent : LoadSource
  | readFailed : LoadSource
  | badJSON : LoadSource
  | parsed : JSValue → LoadSource

/-- `loadRoutes` (src/index.js:32-60).  The first `forEach` (lines 37-41)
discards the keys it computes, but a `TypeError` it raises aborts the load
before the second loop inserts anything; both loops evaluate the same field
accesses, so the load inserts either every record or none — hence the
`mapM`. -/
def loadRoutes (src : LoadSource) (routes : Table) : Table :=
  match src with
  | .absent => routes
  | .readFailed => routes
  | .badJSON => routes
  | .parsed v =>
    match v with
    | .arr items =>
      match items.mapM loadItem with
      | .ok defs => defs.foldl (fun t d => mapSet t (d.method ++ " " ++ d.path) d) routes
      | .error _ => routes
    | _ => routes

/-- One element of the snapshot array (src/index.js:66), as the JSON value
`JSON.stringify` renders it: an `undefined` `response` field is omitted. -/
def persistItem (v : MockDef) : JSValue :=
  .obj ([("path", .str v.path), ("method", .str v.method), ("status", v.status)]
    ++ (match v.response with | some r => [("response", r)] | none => [])
    ++ [("headers", jsOr (some v.headers) (.obj []))])

/-- The snapshot array `persistRoutes` serializes (src/index.js:63-69). -/
def persistTable (t : Table) : List JSValue :=
  t.map (fun kv => persistItem kv.2)

/-- A file-system operation performed by the persistence path; the written
text is represented by its parsed JSON value. -/
inductive FsOp : Type where
  | write : String → List JSValue → FsOp
  | rename : String → String → FsOp

/-- The temp-file name `` `${path}.${Date.now()}.tmp` `` (src/index.js:26);
`nowMs` is the millisecond clock reading of the write attempt. -/
def tmpName (path : String) (nowMs : Nat) : String :=
  path ++ "." ++ Nat.repr nowMs ++ ".tmp"

/-- `atomicWriteFile` (src/index.js:25-29), as the sequence of file-system
operations it performs. -/
def atomicWriteFile (path : String) (data : List JSValue) (nowMs : Nat) : List FsOp :=
  [.write (tmpName path nowMs) data, .rename (tmpName path nowMs) path]

/-- `persistRoutes` (src/index.js:63-69) as file-system operations. -/
def persistRoutes (dataFile : String) (t : Table) (nowMs : Nat) : List FsOp :=
  atomicWriteFile dataFile (persistTable t) nowMs

/-- Outcome of the rate-limiter middleware: fall through to the next
handler with the updated `lastRequest` map, or answer immediately. -/
inductive RateOutcome : Type where
  | next : List (String × Int) → RateOutcome
  | reject : HttpResponse → List (String × Int) → RateOutcome

/-- The rate-limiter middleware (src/index.js:78-98): `window` is
`RATE_LIMIT_SECONDS`, `exempt` is `RATE_LIMIT_EXEMPT`, `last` the
`lastRequest` map, `now` the epoch-second clock reading.
`lastRequest.get(ip) || 0` maps a missing entry to `0` (on a present entry
`|| 0` only re-maps the falsy number `0` to itself), hence `getD 0`. -/
def rateLimiter (window : Int) (exempt : List String) (last : List (String × Int))
    (ip reqPath : String) (now : Int) : RateOutcome :=
  if reqPath ∈ exempt then .next last
  else
    let l : Int := (last.lookup ip).getD 0
    if now - l < window then
      let retryAfter := window - (now - l)
      .reject ⟨.num 429, [("Retry-After", toString retryAfter)],
        .json (.obj [("error", .str "Too many requests"),
                     ("retry_after_seconds", .num retryAfter)])⟩ last
    else
      .next (mapSet last ip now)

/-- The map the rate limiter leaves behind. -/
def RateOutcome.state : RateOutcome → List (String × Int)
  | .next l => l
  | .reject _ l => l

/-- `typeof v === 'object'` for a defined value (`null` qualifies). -/
def jsTypeofObject : JSValue → Bool
  | .null => true
  | .arr _ => true
  | .obj _ => true
  | _ => false

/-- `typeof route.response === 'object'` (`undefined` does not qualify). -/
def respTypeofObject : Option JSValue → Bool
  | none => false
  | some v => jsTypeofObject v

/-- `Object.entries` for the stored `headers` value. -/
def headerEntries : JSValue → List (String × JSValue)
  | .obj fields => fields
  | .arr xs => xs.enum.map (fun iv => (Nat.repr iv.1, iv.2))
  | _ => []

/-- Sequentially apply stored headers with `res.set(k, String(v))`.
`valid k v` says whether Node accepts the header; an invalid name or value
throws, aborting the loop with the earlier headers already set (the
exception is caught and ignored by the handler). -/
def applyHeaders (valid : String → String → Bool) : List (String × JSValue) → List (String × String)
  | [] => []
  | (k, v) :: rest =>
    let sv := jsToStringV v
    if valid k sv then (k, sv) :: applyHeaders valid rest
    else []

/-- The catch-all handler (src/index.js:137-159).  `valid` is the oracle for
which headers Node accepts (the source of the exceptions the `try` around
the header loop catches). -/
def catchAll (t : Table) (valid : String → String → Bool)
    (method reqPath : String) : HttpResponse :=
  let key := jsToUpperCase method ++ " " ++ normalizePath reqPath
  match t.lookup key with
  | none => ⟨.num 404, [], .json (.obj [("error", .str "Not found")])⟩
  | some route =>
    let hs :=
      if jsTruthyV route.headers && jsTypeofObject route.headers then
        applyHeaders valid (headerEntries route.headers)
      else []
    if respTypeofObject route.response then
      ⟨route.status, hs, .json (route.response.getD .null)⟩
    else
      ⟨route.status, hs, .text (jsToString route.response)⟩

/-- A route summary produced by `GET /__routes`. -/
structure RouteSummary : Type where
  path : String
  method : String
  status : JSValue

/-- The `GET /__routes` handler (src/index.js:127-131). -/
def listRoutes (t : Table) : List RouteSummary :=
  t.map (fun kv => ⟨kv.2.path, kv.2.method, kv.2.status⟩)

/-! ### Association-list (JS `Map`) lemmas -/

theorem lookup_map_update (t : List (String × α)) (k : String) (v : α) (h : (t.lookup k).isSome) :
    (t.map (fun kv => if kv.1 = k then (k, v) else kv)).lookup k = some v := by
  induction t with
  | nil => simp [List.lookup] at h
  | cons a t ih =>
    obtain ⟨k0, v0⟩ := a
    by_cases hk : k0 = k
    · subst hk
      rw [List.map_cons]
      rw [if_pos (show (k0, v0).1 = k0 from rfl), List.lookup_cons]
      simp
    · rw [List.map_cons] at *
      simp only [hk, if_false]
      have hbeq : (k == k0) = false := by
        simp [beq_iff_eq]
        exact fun hh => hk hh.symm
      rw [List.lookup_cons] at h ⊢
      simp only [hbeq] at h ⊢
      exact ih h

theorem lookup_map_update_ne (t : List (String × α)) (k kq : String) (v : α) (h : kq ≠ k) :
    (t.map (fun kv => if kv.1 = k then (k, v) else kv)).lookup kq = t.lookup kq := by
  induction t with
  | nil => simp
  | cons a t ih =>
    obtain ⟨k0, v0⟩ := a
    by_cases hk : k0 = k
    · subst hk
      have hbeq : (kq == k0) = false := by simpa [beq_iff_eq] using h
      simp [List.lookup_cons, hbeq, ih]
    · simp only [List.map_cons, hk, if_false]
      rw [List.lookup_cons, List.lookup_cons]
      cases hbeq : kq == k0 with
      | true => rfl
      | false => exact ih

theorem lookup_append_assoc (t l : List (String × α)) (a : String) :
    (t ++ l).lookup a = match t.lookup a with
      | some v => some v
      | none => l.lookup a := by
  induction t with
  | nil => simp
  | cons p t ih =>
    obtain ⟨k0, v0⟩ := p
    rw [List.cons_append, List.lookup_cons, List.lookup_cons]
    cases hbeq : a == k0 with
    | true => rfl
    | false => exact ih

theorem lookup_mapSet_self (t : List (String × α)) (k : String) (v : α) :
    (mapSet t k v).lookup k = some v := by
  unfold mapSet
  by_cases h : (t.lookup k).isSome
  · rw [if_pos h]
    exact lookup_map_update t k v h
  · rw [if_neg h]
    rw [lookup_append_assoc]
    rw [Option.not_isSome_iff_eq_none] at h
    simp [h, List.lookup]

theorem lookup_mapSet_ne (t : List (String × α)) (k kq : String) (v : α) (h : kq ≠ k) :
    (mapSet t k v).lookup kq = t.lookup kq := by
  unfold mapSet
  by_cases hp : (t.lookup k).isSome
  · rw [if_pos hp]
    exact lookup_map_update_ne t k kq v h
  · rw [if_neg hp, lookup_append_assoc]
    cases hl : t.lookup kq with
    | some w => rfl
    | none =>
      have hbeq : (kq == k) = false := by simpa [beq_iff_eq] using h
      simp [List.lookup, hbeq]

theorem lookup_eq_none_of_not_mem_keys (t : List (String × α)) (k : String)
    (h : k ∉ t.map Prod.fst) : t.lookup k = none := by
  induction t with
  | nil => simp
  | cons p t ih =>
    obtain ⟨k0, v0⟩ := p
    simp only [List.map_cons, List.mem_cons] at h
    push_neg at h
    have hbeq : (k == k0) = false := by simpa [beq_iff_eq] using h.1
    rw [List.lookup_cons]
    simp only [hbeq]
    exact ih h.2

theorem not_mem_keys_of_lookup_eq_none (t : List (String × α)) (k : String)
    (h : t.lookup k = none) : k ∉ t.map Prod.fst := by
  induction t with
  | nil => simp
  | cons p t ih =>
    obtain ⟨k0, v0⟩ := p
    rw [List.lookup_cons] at h
    cases hbeq : k == k0 with
    | true => simp [hbeq] at h
    | false =>
      simp only [hbeq] at h
      have hne : k ≠ k0 := by simpa [beq_iff_eq] using (by simp [hbeq] : ¬ (k == k0) = true)
      simp only [List.map_cons, List.mem_cons]
      push_neg
      exact ⟨hne, ih h⟩

theorem keys_mapSet_of_isSome (t : List (String × α)) (k : String) (v : α)
    (h : (t.lookup k).isSome) : (mapSet t k v).map Prod.fst = t.map Prod.fst := by
  unfold mapSet
  rw [if_pos h, List.map_map]
  apply List.map_congr_left
  intro kv _
  by_cases hk : kv.1 = k
  · simp [hk]
  · simp [hk]

theorem keys_mapSet_of_none (t : List (String × α)) (k : String) (v : α)
    (h : t.lookup k = none) : (mapSet t k v).map Prod.fst = t.map Prod.fst ++ [k] := by
  unfold mapSet
  rw [if_neg (by simp [h]), List.map_append]
  rfl

theorem nodup_keys_mapSet (t : List (String × α)) (k : String) (v : α)
    (h : (t.map Prod.fst).Nodup) : ((mapSet t k v).map Prod.fst).Nodup := by
  cases hl : t.lookup k with
  | some w => rw [keys_mapSet_of_isSome t k v (by simp [hl])]; exact h
  | none =>
    rw [keys_mapSet_of_none t k v hl]
    have hk : k ∉ t.map Prod.fst := not_mem_keys_of_lookup_eq_none t k hl
    simp [List.nodup_append, h, hk]

theorem mem_mapSet (t : List (String × α)) (k : String) (v : α) (kv : String × α)
    (h : kv ∈ mapSet t k v) : kv = (k, v) ∨ kv ∈ t := by
  unfold mapSet at h
  by_cases hp : (t.lookup k).isSome
  · rw [if_pos hp] at h
    obtain ⟨orig, horig, heq⟩ := List.mem_map.mp h
    by_cases hk : orig.1 = k
    · simp only [hk, if_true] at heq
      exact Or.inl heq.symm
    · simp only [hk, if_false] at heq
      exact Or.inr (heq ▸ horig)
  · rw [if_neg hp, List.mem_append] at h
    rcases h with h | h
    · exact Or.inr h
    · exact Or.inl (List.mem_singleton.mp h)

theorem mapSet_of_lookup_none (t : List (String × α)) (k : String) (v : α)
    (h : t.lookup k = none) : mapSet t k v = t ++ [(k, v)] := by
  unfold mapSet
  rw [if_neg (by simp [h])]

/-! ### Character and string lemmas -/

theorem toNat_ofNat_valid {n : Nat} (h : n.isValidChar) : (Char.ofNat n).toNat = n := by
  unfold Char.ofNat
  rw [dif_pos h]
  rfl

theorem char_toUpper_fix (d : Char) (hd : ¬ (d.toNat ≥ 97 ∧ d.toNat ≤ 122)) :
    d.toUpper = d := by
  simp only [Char.toUpper]
  rw [if_neg hd]

theorem char_toUpper_idem (c : Char) : c.toUpper.toUpper = c.toUpper := by
  by_cases h : c.toNat ≥ 97 ∧ c.toNat ≤ 122
  · have h1 : c.toUpper = Char.ofNat (c.toNat - 32) := by
      simp only [Char.toUpper]
      rw [if_pos h]
    have hv : Nat.isValidChar (c.toNat - 32) := Or.inl (by omega)
    have ht : (Char.ofNat (c.toNat - 32)).toNat = c.toNat - 32 := toNat_ofNat_valid hv
    apply char_toUpper_fix
    rw [h1, ht]
    omega
  · rw [char_toUpper_fix c h, char_toUpper_fix c h]

theorem jsToUpperCase_idem (s : String) : jsToUpperCase (jsToUpperCase s) = jsToUpperCase s := by
  show String.mk ((s.data.map Char.toUpper).map Char.toUpper) = String.mk (s.data.map Char.toUpper)
  rw [List.map_map]
  exact congrArg String.mk (List.map_congr_left (fun c _ => char_toUpper_idem c))

theorem jsToUpperCase_ne_empty (s : String) (h : s ≠ "") : jsToUpperCase s ≠ "" := by
  obtain ⟨d⟩ := s
  intro hc
  apply h
  have hd : d.map Char.toUpper = [] := congrArg String.data hc
  have hnil : d = [] := by
    cases d with
    | nil => rfl
    | cons a l => simp at hd
  subst hnil
  rfl

theorem jsStartsWith_slash_append (p : String) : jsStartsWith ("/" ++ p) "/" = true := by
  unfold jsStartsWith
  rw [String.data_append]
  simp [List.isPrefixOf]

theorem slash_append_ne_empty (p : String) : ("/" ++ p) ≠ "" := by
  obtain ⟨d⟩ := p
  intro h
  have h2 : ('/' :: d : List Char) = [] := congrArg String.data h
  exact absurd h2 (by simp)

theorem normalizePath_startsWithSlash (p : String) :
    jsStartsWith (normalizePath p) "/" = true := by
  unfold normalizePath
  by_cases h0 : p = ""
  · rw [if_pos h0]
    rfl
  · rw [if_neg h0]
    by_cases hs : jsStartsWith p "/"
    · simp only [hs, Bool.not_true, Bool.false_eq_true, if_false]
    · simp only [Bool.not_eq_true] at hs
      simp only [hs, Bool.not_false, if_true]
      exact jsStartsWith_slash_append p

theorem normalizePath_ne_empty (p : String) : normalizePath p ≠ "" := by
  unfold normalizePath
  by_cases h0 : p = ""
  · rw [if_pos h0]
    intro h
    exact absurd (congrArg String.data h) (by simp)
  · rw [if_neg h0]
    by_cases hs : jsStartsWith p "/"
    · simp only [hs, Bool.not_true, Bool.false_eq_true, if_false]
      exact h0
    · simp only [Bool.not_eq_true] at hs
      simp only [hs, Bool.not_false, if_true]
      exact slash_append_ne_empty p

theorem normalizePath_eq_self (p : String) (h0 : p ≠ "") (hs : jsStartsWith p "/" = true) :
    normalizePath p = p := by
  unfold normalizePath
  rw [if_neg h0]
  simp [hs]

theorem normalizePath_idem (p : String) : normalizePath (normalizePath p) = normalizePath p :=
  normalizePath_eq_self (normalizePath p) (normalizePath_ne_empty p)
    (normalizePath_startsWithSlash p)

/-! ### C9 — normalizePath -/

/-- C9: `normalizePath` maps the empty string to `/`, prefixes `/` to any
input not starting with `/`, returns any other input unchanged, and is
idempotent. -/
theorem normalizePath_spec :
    normalizePath "" = "/" ∧
    (∀ p : String, jsStartsWith p "/" = false → normalizePath p = "/" ++ p) ∧
    (∀ p : String, jsStartsWith p "/" = true → normalizePath p = p) ∧
    (∀ p : String, normalizePath (normalizePath p) = normalizePath p) := by
  refine ⟨rfl, ?_, ?_, normalizePath_idem⟩
  · intro p hs
    by_cases h0 : p = ""
    · subst h0
      rfl
    · unfold normalizePath
      rw [if_neg h0]
      simp [hs]
  · intro p hs
    have h0 : p ≠ "" := by
      intro h
      subst h
      exact absurd hs (by decide)
    exact normalizePath_eq_self p h0 hs

/-- Witness for `normalizePath_spec` at concrete inputs. -/
theorem normalizePath_spec_witness :
    normalizePath "foo" = "/foo" ∧ normalizePath "/foo" = "/foo" :=
  ⟨normalizePath_spec.2.1 "foo" (by decide), normalizePath_spec.2.2.1 "/foo" (by decide)⟩

/-! ### C6 — load failure policy -/

/-- C6: `loadRoutes` leaves startup with the empty route table when the
snapshot file is absent, unreadable, or unparseable as JSON; the model is a
total function, reflecting that the `try`/`catch` lets no exception
escape. -/
theorem loadRoutes_failOpen :
    loadRoutes .absent [] = [] ∧
    loadRoutes .readFailed [] = [] ∧
    loadRoutes .badJSON [] = [] :=
  ⟨rfl, rfl, rfl⟩

/-! ### C7 — rate-limit exemption -/

/-- C7: a request on an exempt path is admitted with the timestamp map
untouched, so any later request is evaluated exactly as if the exempt
request had never happened. -/
theorem rateLimiter_exempt (window : Int) (exempt : List String)
    (last : List (String × Int)) (ip reqPath : String) (now : Int)
    (h : reqPath ∈ exempt) :
    rateLimiter window exempt last ip reqPath now = .next last ∧
    ∀ (ip2 reqPath2 : String) (now2 : Int),
      rateLimiter window exempt
          (rateLimiter window exempt last ip reqPath now).state ip2 reqPath2 now2
        = rateLimiter window exempt last ip2 reqPath2 now2 := by
  have h1 : rateLimiter window exempt last ip reqPath now = .next last := by
    unfold rateLimiter
    rw [if_pos h]
  refine ⟨h1, ?_⟩
  intro ip2 reqPath2 now2
  rw [h1]
  rfl

/-- Witness for `rateLimiter_exempt` at a concrete state. -/
theorem rateLimiter_exempt_witness :
    rateLimiter 10 ["/health"] [("1.2.3.4", 3)] "1.2.3.4" "/health" 4
      = .next [("1.2.3.4", 3)] :=
  (rateLimiter_exempt 10 ["/health"] [("1.2.3.4", 3)] "1.2.3.4" "/health" 4
    (by simp)).1

/-! ### C1 — rate limiter admit/reject -/

/-- C1 counterexample: with window 10 and no prior timestamp recorded for
the client (empty map), a request at second 5 is rejected with retry 5,
although the claim admits every first request from an unseen identifier. -/
theorem rateLimiter_firstRequest_rejected :
    List.lookup "1.2.3.4" ([] : List (String × Int)) = none ∧
    rateLimiter 10 [] [] "1.2.3.4" "/x" 5
      = .reject ⟨.num 429, [("Retry-After", "5")],
          .json (.obj [("error", .str "Too many requests"),
                       ("retry_after_seconds", .num 5)])⟩ [] :=
  ⟨rfl, rfl⟩

/-- C1 amended: a missing timestamp is read as `0` (so a first request is
admitted only when `now ≥ window`; real epoch clocks always satisfy this).
A non-exempt request is admitted with the timestamp refreshed iff
`now - last ≥ window`; otherwise it is rejected with status 429, body field
`retry_after_seconds = window - (now - last)`, a `Retry-After` header with
the same integer, and no timestamp update. -/
theorem rateLimiter_spec (window : Int) (exempt : List String)
    (last : List (String × Int)) (ip reqPath : String) (now : Int)
    (hex : reqPath ∉ exempt) :
    (now - (last.lookup ip).getD 0 ≥ window →
      rateLimiter window exempt last ip reqPath now = .next (mapSet last ip now)) ∧
    (now - (last.lookup ip).getD 0 < window →
      rateLimiter window exempt last ip reqPath now
        = .reject ⟨.num 429,
            [("Retry-After", toString (window - (now - (last.lookup ip).getD 0)))],
            .json (.obj [("error", .str "Too many requests"),
              ("retry_after_seconds", .num (window - (now - (last.lookup ip).getD 0)))])⟩
            last) := by
  constructor
  · intro hge
    unfold rateLimiter
    rw [if_neg hex]
    dsimp only
    rw [if_neg (by omega)]
  · intro hlt
    unfold rateLimiter
    rw [if_neg hex]
    dsimp only
    rw [if_pos hlt]

/-- Witness for `rateLimiter_spec`: admit at `now - last = 12 ≥ 10`,
reject at `now - last = 5 < 10` with retry 5. -/
theorem rateLimiter_spec_witness :
    rateLimiter 10 [] [("a", 0)] "a" "/x" 12 = .next [("a", 12)] ∧
    rateLimiter 10 [] [("a", 12)] "a" "/x" 17
      = .reject ⟨.num 429, [("Retry-After", "5")],
          .json (.obj [("error", .str "Too many requests"),
                       ("retry_after_seconds", .num 5)])⟩ [("a", 12)] :=
  ⟨(rateLimiter_spec 10 [] [("a", 0)] "a" "/x" 12 (by simp)).1 (by decide),
   (rateLimiter_spec 10 [] [("a", 12)] "a" "/x" 17 (by simp)).2 (by decide)⟩

/-! ### C3 — POST /register outcomes -/

/-- C3: an invalid body (`path` missing/empty or `response` absent) yields
400 with neither the table changed nor a persistence write attempted; a
valid body with a failing durable write yields 500 with the table already
holding the new definition; a valid body with a successful write yields 200
acknowledging the uppercased method and normalized path. -/
theorem register_spec (t : Table) (b : RegisterBody) (persistOk : Bool) :
    ((strTruthy b.path = false ∨ b.response = none) →
      register t b persistOk
        = ⟨⟨.num 400, [], .json (.obj [("error", .str "path and response required")])⟩,
            t, false⟩) ∧
    (strTruthy b.path = true → b.response ≠ none → persistOk = false →
      (register t b persistOk).resp
          = ⟨.num 500, [], .json (.obj [("error", .str "Failed to persist route")])⟩ ∧
      (register t b persistOk).table.lookup
          (jsToUpperCase (b.method.getD "GET") ++ " " ++ normalizePath (b.path.getD ""))
        = some ⟨jsToUpperCase (b.method.getD "GET"), normalizePath (b.path.getD ""),
            .num (numberOr200 b.status), b.response, b.headers.getD (.obj [])⟩) ∧
    (strTruthy b.path = true → b.response ≠ none → persistOk = true →
      (register t b persistOk).resp
        = ⟨.num 200, [], .json (.obj [("message", .str "Registered"),
            ("method", .str (jsToUpperCase (b.method.getD "GET"))),
            ("path", .str (normalizePath (b.path.getD "")))])⟩) := by
  refine ⟨?_, ?_, ?_⟩
  · intro h
    have hg : (!strTruthy b.path || b.response.isNone) = true := by
      rcases h with h | h
      · rw [h]
        rfl
      · rw [h]
        simp
    unfold register
    rw [if_pos hg]
  · intro hp hr hok
    subst hok
    have hg : ¬ ((!strTruthy b.path || b.response.isNone) = true) := by
      cases hres : b.response with
      | none => exact absurd hres hr
      | some r => simp [hp]
    unfold register
    rw [if_neg hg]
    dsimp only
    exact ⟨rfl, lookup_mapSet_self t _ _⟩
  · intro hp hr hok
    subst hok
    have hg : ¬ ((!strTruthy b.path || b.response.isNone) = true) := by
      cases hres : b.response with
      | none => exact absurd hres hr
      | some r => simp [hp]
    unfold register
    rw [if_neg hg]
    rfl

/-- Witness for `register_spec` at concrete bodies. -/
theorem register_spec_witness :
    register [] ⟨none, none, some .null, none, none⟩ true
      = ⟨⟨.num 400, [], .json (.obj [("error", .str "path and response required")])⟩,
          [], false⟩ ∧
    (register [] ⟨some "x", none, some (.str "hi"), none, none⟩ false).resp
      = ⟨.num 500, [], .json (.obj [("error", .str "Failed to persist route")])⟩ ∧
    (register [] ⟨some "x", none, some (.str "hi"), none, none⟩ true).resp
      = ⟨.num 200, [], .json (.obj [("message", .str "Registered"),
          ("method", .str "GET"), ("path", .str "/x")])⟩ :=
  ⟨(register_spec [] ⟨none, none, some .null, none, none⟩ true).1 (Or.inl rfl),
   ((register_spec [] ⟨some "x", none, some (.str "hi"), none, none⟩ false).2.1
      rfl (by simp) rfl).1,
   (register_spec [] ⟨some "x", none, some (.str "hi"), none, none⟩ true).2.2
      rfl (by simp) rfl⟩

/-! ### C10 — header errors in the catch-all handler -/

/-- C10: on a matched route, the header-application oracle (which headers
Node accepts before throwing) never changes the status or the rendered
body: the response always carries the stored status and the stored
response, JSON-rendered for object/array/null values and text-rendered
otherwise. -/
theorem catchAll_headerFail_harmless (t : Table) (valid : String → String → Bool)
    (method reqPath : String) (route : MockDef)
    (h : t.lookup (jsToUpperCase method ++ " " ++ normalizePath reqPath) = some route) :
    (catchAll t valid method reqPath).status = route.status ∧
    (catchAll t valid method reqPath).body
      = (if respTypeofObject route.response then .json (route.response.getD .null)
         else .text (jsToString route.response)) := by
  unfold catchAll
  dsimp only
  rw [h]
  by_cases hobj : respTypeofObject route.response = true
  · simp [hobj]
  · simp only [Bool.not_eq_true] at hobj
    simp [hobj]

/-- Witness for `catchAll_headerFail_harmless`: every header is refused by
the oracle, yet the matched response keeps its stored status and body. -/
theorem catchAll_headerFail_harmless_witness :
    (catchAll [("GET /x", ⟨"GET", "/x", .num 201, some (.obj [("hi", .str "there")]),
        .obj [("Bad Header", .str "1")]⟩)] (fun _ _ => false) "GET" "/x").status
      = .num 201 ∧
    (catchAll [("GET /x", ⟨"GET", "/x", .num 201, some (.obj [("hi", .str "there")]),
        .obj [("Bad Header", .str "1")]⟩)] (fun _ _ => false) "GET" "/x").body
      = .json (.obj [("hi", .str "there")]) :=
  catchAll_headerFail_harmless
    [("GET /x", ⟨"GET", "/x", .num 201, some (.obj [("hi", .str "there")]),
        .obj [("Bad Header", .str "1")]⟩)] (fun _ _ => false) "GET" "/x"
    ⟨"GET", "/x", .num 201, some (.obj [("hi", .str "there")]), .obj [("Bad Header", .str "1")]⟩
    rfl

/-! ### Load-path helper lemmas -/

theorem except_bind_ok (a : α) (f : α → Except ε β) : (Except.ok a >>= f) = f a := rfl

theorem except_bind_error (e : ε) (f : α → Except ε β) :
    ((Except.error e : Except ε α) >>= f) = .error e := rfl

theorem jsOr_of_falsy (a : Option JSValue) (b : JSValue) (h : jsTruthy a = false) :
    jsOr a b = b := by
  cases a with
  | none => rfl
  | some v =>
    have hv : jsTruthyV v = false := h
    simp [jsOr, hv]

theorem jsOr_of_truthy (v b : JSValue) (h : jsTruthyV v = true) : jsOr (some v) b = v := by
  simp [jsOr, h]

theorem methodOfItem_ok (mRaw : Option JSValue) (m : String) (h : methodOfItem mRaw = .ok m) :
    jsToUpperCase m = m ∧ m ≠ "" ∧ (jsTruthy mRaw = false → m = "GET") := by
  unfold methodOfItem at h
  split at h
  case _ s hj =>
    injection h with h
    subst h
    have hs : s ≠ "" ∧ (jsTruthy mRaw = false → s = "GET") := by
      cases mRaw with
      | none =>
        have : JSValue.str "GET" = JSValue.str s := hj
        injection this with this
        subst this
        exact ⟨by decide, fun _ => rfl⟩
      | some v =>
        by_cases ht : jsTruthyV v = true
        · rw [jsOr_of_truthy v _ ht] at hj
          subst hj
          have : (s != "") = true := ht
          refine ⟨by simpa using this, ?_⟩
          intro hf
          have : jsTruthyV (JSValue.str s) = false := hf
          rw [ht] at this
          cases this
        · simp only [Bool.not_eq_true] at ht
          rw [jsOr_of_falsy (some v) _ ht] at hj
          injection hj with hj
          subst hj
          exact ⟨by decide, fun _ => rfl⟩
    refine ⟨jsToUpperCase_idem s, jsToUpperCase_ne_empty s hs.1, ?_⟩
    intro hf
    rw [hs.2 hf]
    rfl
  case _ =>
    cases h

theorem pathOfItem_ok (pRaw : Option JSValue) (p : String) (h : pathOfItem pRaw = .ok p) :
    jsStartsWith p "/" = true := by
  unfold pathOfItem at h
  by_cases ht : jsTruthy pRaw = false
  · rw [if_pos ht] at h
    injection h with h
    subst h
    decide
  · rw [if_neg ht] at h
    split at h
    case _ s =>
      injection h with h
      subst h
      exact normalizePath_startsWithSlash s
    case _ =>
      cases h

theorem loadItem_ok_parts (it : JSValue) (d : MockDef) (h : loadItem it = .ok d) :
    ∃ mRaw pRaw sRaw rRaw hRaw,
      objGet it "method" = .ok mRaw ∧ methodOfItem mRaw = .ok d.method ∧
      objGet it "path" = .ok pRaw ∧ pathOfItem pRaw = .ok d.path ∧
      objGet it "status" = .ok sRaw ∧ d.status = jsOr sRaw (.num 200) ∧
      objGet it "response" = .ok rRaw ∧ d.response = rRaw ∧
      objGet it "headers" = .ok hRaw ∧ d.headers = jsOr hRaw (.obj []) := by
  unfold loadItem at h
  cases hm : objGet it "method" with
  | error e => rw [hm, except_bind_error] at h; cases h
  | ok mRaw =>
  rw [hm, except_bind_ok] at h
  cases hmm : methodOfItem mRaw with
  | error e => rw [hmm, except_bind_error] at h; cases h
  | ok m =>
  rw [hmm, except_bind_ok] at h
  cases hp : objGet it "path" with
  | error e => rw [hp, except_bind_error] at h; cases h
  | ok pRaw =>
  rw [hp, except_bind_ok] at h
  cases hpp : pathOfItem pRaw with
  | error e => rw [hpp, except_bind_error] at h; cases h
  | ok p =>
  rw [hpp, except_bind_ok] at h
  cases hs : objGet it "status" with
  | error e => rw [hs, except_bind_error] at h; cases h
  | ok sRaw =>
  rw [hs, except_bind_ok] at h
  cases hr : objGet it "response" with
  | error e => rw [hr, except_bind_error] at h; cases h
  | ok rRaw =>
  rw [hr, except_bind_ok] at h
  cases hh : objGet it "headers" with
  | error e => rw [hh, except_bind_error] at h; cases h
  | ok hRaw =>
  rw [hh, except_bind_ok] at h
  have h2 : Except.ok (ε := Unit)
      (MockDef.mk m p (jsOr sRaw (.num 200)) rRaw (jsOr hRaw (.obj []))) = .ok d := h
  injection h2 with h2
  subst h2
  exact ⟨mRaw, pRaw, sRaw, rRaw, hRaw, rfl, hmm, rfl, hpp, rfl, rfl, rfl, rfl, rfl, rfl⟩

/-! ### C5 — normalization at load -/

/-- C5 counterexample: a snapshot record with the truthy non-numeric status
`"teapot"` is loaded with that status kept verbatim, not defaulted to 200
(registration would have coerced it through `Number`, load does not). -/
theorem loadItem_keeps_nonNumeric_status :
    (loadItem (.obj [("path", .str "/x"), ("status", .str "teapot"),
        ("response", .null)])).map MockDef.status = .ok (.str "teapot") ∧
    jsToNumberV (.str "teapot") = none ∧
    JSValue.str "teapot" ≠ JSValue.num 200 :=
  ⟨rfl, by decide, fun h => JSValue.noConfusion h⟩

/-- C5 (amended): every record read during load is stored normalized:
path starts with `/` (defaulted to `/` when falsy), method uppercased
(stable under a second uppercasing), non-empty, and defaulted to `GET` when
the raw field is falsy; status defaulted to 200 whenever the raw field is
absent or falsy, while a truthy status value — numeric or not — is kept
verbatim; headers defaulted to the empty mapping whenever the raw field is
absent or falsy, a truthy value kept verbatim. -/
theorem loadRecord_normalized (it : JSValue) (d : MockDef) (h : loadItem it = .ok d) :
    jsStartsWith d.path "/" = true ∧
    jsToUpperCase d.method = d.method ∧
    d.method ≠ "" ∧
    (∀ mRaw, objGet it "method" = .ok mRaw → jsTruthy mRaw = false → d.method = "GET") ∧
    (∀ sRaw, objGet it "status" = .ok sRaw →
      (jsTruthy sRaw = false → d.status = .num 200) ∧
      ∀ v, sRaw = some v → jsTruthyV v = true → d.status = v) ∧
    (∀ hRaw, objGet it "headers" = .ok hRaw →
      (jsTruthy hRaw = false → d.headers = .obj []) ∧
      ∀ v, hRaw = some v → jsTruthyV v = true → d.headers = v) := by
  obtain ⟨mRaw, pRaw, sRaw, rRaw, hRaw, hm, hmm, hp, hpp, hs, hds, hr, hdr, hh, hdh⟩ :=
    loadItem_ok_parts it d h
  obtain ⟨hup, hne, hdef⟩ := methodOfItem_ok mRaw d.method hmm
  refine ⟨pathOfItem_ok pRaw d.path hpp, hup, hne, ?_, ?_, ?_⟩
  · intro mRaw2 hm2 hf
    rw [hm] at hm2
    injection hm2 with hm2
    subst hm2
    exact hdef hf
  · intro sRaw2 hs2
    rw [hs] at hs2
    injection hs2 with hs2
    subst hs2
    constructor
    · intro hf
      rw [hds, jsOr_of_falsy sRaw _ hf]
    · intro v hv ht
      subst hv
      rw [hds, jsOr_of_truthy v _ ht]
  · intro hRaw2 hh2
    rw [hh] at hh2
    injection hh2 with hh2
    subst hh2
    constructor
    · intro hf
      rw [hdh, jsOr_of_falsy hRaw _ hf]
    · intro v hv ht
      subst hv
      rw [hdh, jsOr_of_truthy v _ ht]

/-- Witness for `loadRecord_normalized` at a concrete record lacking the
method, status and headers fields. -/
theorem loadRecord_normalized_witness :
    loadItem (.obj [("path", .str "a")]) = .ok ⟨"GET", "/a", .num 200, none, .obj []⟩ ∧
    jsStartsWith (MockDef.path ⟨"GET", "/a", .num 200, none, .obj []⟩) "/" = true :=
  ⟨rfl, (loadRecord_normalized (.obj [("path", .str "a")])
      ⟨"GET", "/a", .num 200, none, .obj []⟩ rfl).1⟩

/-! ### Table invariants and C8 — last-write-wins -/

/-- Key/shape invariant the registration path maintains: every entry is
stored under `` `${method} ${path}` `` and keys are pairwise distinct. -/
def tableKeyed (t : Table) : Prop :=
  (∀ kv ∈ t, kv.1 = kv.2.method ++ " " ++ kv.2.path) ∧ (t.map Prod.fst).Nodup

theorem tableKeyed_mapSet (t : Table) (d : MockDef) (h : tableKeyed t) :
    tableKeyed (mapSet t (d.method ++ " " ++ d.path) d) := by
  constructor
  · intro kv hkv
    rcases mem_mapSet _ _ _ _ hkv with h1 | h1
    · subst h1
      rfl
    · exact h.1 kv h1
  · exact nodup_keys_mapSet _ _ _ h.2

theorem register_table_valid (t : Table) (b : RegisterBody) (ok : Bool)
    (hg : (!strTruthy b.path || b.response.isNone) = false) :
    (register t b ok).table
      = mapSet t (jsToUpperCase (b.method.getD "GET") ++ " " ++ normalizePath (b.path.getD ""))
          ⟨jsToUpperCase (b.method.getD "GET"), normalizePath (b.path.getD ""),
            .num (numberOr200 b.status), b.response, b.headers.getD (.obj [])⟩ := by
  unfold register
  rw [if_neg (by simp [hg])]
  cases ok <;> rfl

theorem tableKeyed_register (t : Table) (b : RegisterBody) (ok : Bool) (h : tableKeyed t) :
    tableKeyed (register t b ok).table := by
  cases hg : (!strTruthy b.path || b.response.isNone) with
  | true =>
    unfold register
    rw [if_pos hg]
    exact h
  | false =>
    rw [register_table_valid t b ok hg]
    exact tableKeyed_mapSet t
      ⟨jsToUpperCase (b.method.getD "GET"), normalizePath (b.path.getD ""),
        .num (numberOr200 b.status), b.response, b.headers.getD (.obj [])⟩ h

theorem tableKeyed_applyRegs (t : Table) (bs : List RegisterBody) (h : tableKeyed t) :
    tableKeyed (applyRegs t bs) := by
  induction bs generalizing t with
  | nil => exact h
  | cons b rest ih => exact ih _ (tableKeyed_register t b true h)

theorem countP_key_unique (t : Table) (m p : String)
    (hkeys : ∀ kv ∈ t, kv.1 = kv.2.method ++ " " ++ kv.2.path)
    (hnodup : (t.map Prod.fst).Nodup) (d : MockDef)
    (hlk : t.lookup (m ++ " " ++ p) = some d) (hdm : d.method = m) (hdp : d.path = p) :
    (listRoutes t).countP (fun e => e.method == m && e.path == p) = 1 := by
  have hcomp : (listRoutes t).countP (fun e => e.method == m && e.path == p)
      = t.countP (fun kv => kv.2.method == m && kv.2.path == p) := by
    unfold listRoutes
    rw [List.countP_map]
    rfl
  rw [hcomp]
  clear hcomp
  induction t with
  | nil => simp [List.lookup] at hlk
  | cons kv rest ih =>
    obtain ⟨k0, d0⟩ := kv
    rw [List.lookup_cons] at hlk
    simp only [List.map_cons, List.nodup_cons] at hnodup
    cases hbeq : (m ++ " " ++ p) == k0 with
    | true =>
      rw [hbeq] at hlk
      injection hlk with hlk
      subst hlk
      have hk0 : k0 = m ++ " " ++ p := (eq_of_beq hbeq).symm
      rw [List.countP_cons_of_pos _ _ (by simp [hdm, hdp])]
      have hzero : rest.countP (fun kv => kv.2.method == m && kv.2.path == p) = 0 := by
        rw [List.countP_eq_zero]
        intro kv2 hkv2
        simp only [Bool.and_eq_true, beq_iff_eq, not_and]
        intro hm2 hp2
        exact absurd (by
          have hkey2 : kv2.1 = kv2.2.method ++ " " ++ kv2.2.path :=
            hkeys kv2 (List.mem_cons_of_mem _ hkv2)
          have hk2 : kv2.1 = k0 := by rw [hkey2, hm2, hp2, hk0]
          rw [← hk2]
          exact List.mem_map_of_mem Prod.fst hkv2) hnodup.1
      omega
    | false =>
      rw [hbeq] at hlk
      have hne : k0 ≠ m ++ " " ++ p := by
        intro hc
        rw [hc] at hbeq
        simp at hbeq
      rw [List.countP_cons_of_neg _ _ (by
        simp only [Bool.and_eq_true, beq_iff_eq, not_and]
        intro hm2 hp2
        apply hne
        have hkey0 : k0 = d0.method ++ " " ++ d0.path :=
          hkeys (k0, d0) (List.mem_cons_self _ _)
        rw [hkey0, hm2, hp2])]
      exact ih (fun kv2 hkv2 => hkeys kv2 (List.mem_cons_of_mem _ hkv2)) hnodup.2 hlk

theorem length_mapSet_of_isSome (t : List (String × α)) (k : String) (v : α)
    (h : (t.lookup k).isSome) : (mapSet t k v).length = t.length := by
  unfold mapSet
  rw [if_pos h]
  exact List.length_map t _

/-- C8: on a table maintained by the registration path (entries stored
under their `` `${method} ${path}` `` key, keys distinct), registering the
same uppercased method and normalized path twice retains only the second
definition — the key now maps to the second body, and the second
registration adds no entry — and the `GET /__routes` listing afterwards
shows exactly one entry for that method and path. -/
theorem register_lastWriteWins (t : Table) (b1 b2 : RegisterBody) (ok1 ok2 : Bool)
    (ht : tableKeyed t)
    (hg1 : (!strTruthy b1.path || b1.response.isNone) = false)
    (hg2 : (!strTruthy b2.path || b2.response.isNone) = false)
    (hm : jsToUpperCase (b1.method.getD "GET") = jsToUpperCase (b2.method.getD "GET"))
    (hp : normalizePath (b1.path.getD "") = normalizePath (b2.path.getD "")) :
    (register (register t b1 ok1).table b2 ok2).table.lookup
        (jsToUpperCase (b2.method.getD "GET") ++ " " ++ normalizePath (b2.path.getD ""))
      = some ⟨jsToUpperCase (b2.method.getD "GET"), normalizePath (b2.path.getD ""),
          .num (numberOr200 b2.status), b2.response, b2.headers.getD (.obj [])⟩ ∧
    (register (register t b1 ok1).table b2 ok2).table.length
      = (register t b1 ok1).table.length ∧
    (listRoutes (register (register t b1 ok1).table b2 ok2).table).countP
        (fun e => e.method == jsToUpperCase (b2.method.getD "GET")
               && e.path == normalizePath (b2.path.getD "")) = 1 := by
  have h1 := register_table_valid t b1 ok1 hg1
  have h2 := register_table_valid (register t b1 ok1).table b2 ok2 hg2
  have hsome : ((register t b1 ok1).table.lookup
      (jsToUpperCase (b2.method.getD "GET") ++ " " ++ normalizePath (b2.path.getD ""))).isSome := by
    rw [h1, ← hm, ← hp, lookup_mapSet_self]
    rfl
  have hlk : (register (register t b1 ok1).table b2 ok2).table.lookup
      (jsToUpperCase (b2.method.getD "GET") ++ " " ++ normalizePath (b2.path.getD ""))
      = some ⟨jsToUpperCase (b2.method.getD "GET"), normalizePath (b2.path.getD ""),
          .num (numberOr200 b2.status), b2.response, b2.headers.getD (.obj [])⟩ := by
    rw [h2]
    exact lookup_mapSet_self _ _ _
  have ht2 : tableKeyed (register (register t b1 ok1).table b2 ok2).table :=
    tableKeyed_register _ b2 ok2 (tableKeyed_register t b1 ok1 ht)
  refine ⟨hlk, ?_, countP_key_unique _ _ _ ht2.1 ht2.2 _ hlk rfl rfl⟩
  rw [h2]
  exact length_mapSet_of_isSome _ _ _ hsome

/-- Witness for `register_lastWriteWins`: the same path registered twice on
the empty table; only the second response value remains, the table still
has a single entry, and the listing has one matching entry. -/
theorem register_lastWriteWins_witness :
    (register (register [] ⟨some "/a", none, some .null, none, none⟩ true).table
        ⟨some "/a", none, some (.str "2"), none, none⟩ true).table.lookup "GET /a"
      = some ⟨"GET", "/a", .num 200, some (.str "2"), .obj []⟩ ∧
    (register (register [] ⟨some "/a", none, some .null, none, none⟩ true).table
        ⟨some "/a", none, some (.str "2"), none, none⟩ true).table.length
      = (register ([] : Table) ⟨some "/a", none, some .null, none, none⟩ true).table.length ∧
    (listRoutes (register (register [] ⟨some "/a", none, some .null, none, none⟩ true).table
        ⟨some "/a", none, some (.str "2"), none, none⟩ true).table).countP
        (fun e => e.method == "GET" && e.path == "/a") = 1 :=
  register_lastWriteWins [] ⟨some "/a", none, some .null, none, none⟩
    ⟨some "/a", none, some (.str "2"), none, none⟩ true true
    ⟨by simp, by simp⟩ rfl rfl rfl rfl

/-! ### C4 — persist/load round trip -/

/-- Shape of the entries well-formed registrations store: uppercase-stable
non-empty method, slash-prefixed path, non-zero numeric status, truthy
headers, present response. -/
def entryDefOK (d : MockDef) : Prop :=
  jsToUpperCase d.method = d.method ∧ d.method ≠ "" ∧
  jsStartsWith d.path "/" = true ∧
  (∃ n : Int, d.status = .num n ∧ n ≠ 0) ∧
  jsTruthyV d.headers = true ∧
  (∃ r, d.response = some r)

/-- Invariant of tables built by well-formed registrations. -/
def tableOK (t : Table) : Prop :=
  (∀ kv ∈ t, entryDefOK kv.2 ∧ kv.1 = kv.2.method ++ " " ++ kv.2.path) ∧
  (t.map Prod.fst).Nodup

/-- Registration bodies whose method, if present, is a non-empty string and
whose headers, if present, are truthy. -/
def bodyOK (b : RegisterBody) : Prop :=
  (∀ s, b.method = some s → s ≠ "") ∧ (∀ v, b.headers = some v → jsTruthyV v = true)

theorem numberOr200_ne_zero (st : Option JSValue) : numberOr200 st ≠ 0 := by
  unfold numberOr200
  cases jsToNumberV (st.getD (.num 200)) with
  | none => decide
  | some n =>
    show (if n = 0 then (200 : Int) else n) ≠ 0
    by_cases hn : n = 0
    · rw [if_pos hn]
      decide
    · rw [if_neg hn]
      exact hn

theorem entryDefOK_register (b : RegisterBody) (hb : bodyOK b) (hr : b.response ≠ none) :
    entryDefOK ⟨jsToUpperCase (b.method.getD "GET"), normalizePath (b.path.getD ""),
      .num (numberOr200 b.status), b.response, b.headers.getD (.obj [])⟩ := by
  refine ⟨jsToUpperCase_idem _, ?_, normalizePath_startsWithSlash _,
    ⟨numberOr200 b.status, rfl, numberOr200_ne_zero b.status⟩, ?_, ?_⟩
  · apply jsToUpperCase_ne_empty
    cases hm : b.method with
    | none => decide
    | some s =>
      have := hb.1 s hm
      simpa using this
  · cases hh : b.headers with
    | none => rfl
    | some v => exact hb.2 v hh
  · cases hres : b.response with
    | none => exact absurd hres hr
    | some r => exact ⟨r, rfl⟩

theorem tableOK_register (t : Table) (b : RegisterBody) (ok : Bool) (hb : bodyOK b)
    (h : tableOK t) : tableOK (register t b ok).table := by
  cases hg : (!strTruthy b.path || b.response.isNone) with
  | true =>
    unfold register
    rw [if_pos hg]
    exact h
  | false =>
    rw [register_table_valid t b ok hg]
    have hr : b.response ≠ none := by
      intro hc
      rw [hc] at hg
      simp at hg
    constructor
    · intro kv hkv
      rcases mem_mapSet _ _ _ _ hkv with h1 | h1
      · subst h1
        exact ⟨entryDefOK_register b hb hr, rfl⟩
      · exact h.1 kv h1
    · exact nodup_keys_mapSet _ _ _ h.2

theorem tableOK_applyRegs (bs : List RegisterBody) (t : Table)
    (hbs : ∀ b ∈ bs, bodyOK b) (h : tableOK t) : tableOK (applyRegs t bs) := by
  induction bs generalizing t with
  | nil => exact h
  | cons b rest ih =>
    exact ih _ (fun b2 hb2 => hbs b2 (List.mem_cons_of_mem _ hb2))
      (tableOK_register t b true (hbs b (List.mem_cons_self _ _)) h)

theorem loadItem_persistItem (v : MockDef) (h : entryDefOK v) :
    loadItem (persistItem v) = .ok v := by
  obtain ⟨vm, vp, vs, vresp, vh⟩ := v
  obtain ⟨hup, hne, hstarts, ⟨n, hsn, hn0⟩, hh, ⟨r, hr⟩⟩ := h
  simp only at hup hne hstarts hsn hh hr
  subst hr
  subst hsn
  have hpne : vp ≠ "" := by
    intro hc
    rw [hc] at hstarts
    exact absurd hstarts (by decide)
  have hpi : persistItem ⟨vm, vp, .num n, some r, vh⟩
      = .obj [("path", .str vp), ("method", .str vm), ("status", .num n),
              ("response", r), ("headers", vh)] := by
    unfold persistItem
    rw [jsOr_of_truthy _ _ hh]
    rfl
  rw [hpi]
  unfold loadItem
  rw [show objGet (.obj [("path", .str vp), ("method", .str vm), ("status", .num n),
        ("response", r), ("headers", vh)]) "method" = .ok (some (.str vm)) from rfl,
    except_bind_ok]
  have hmm : methodOfItem (some (.str vm)) = .ok vm := by
    unfold methodOfItem
    rw [jsOr_of_truthy _ _ (by simp [jsTruthyV, hne])]
    exact congrArg Except.ok hup
  rw [hmm, except_bind_ok]
  rw [show objGet (.obj [("path", .str vp), ("method", .str vm), ("status", .num n),
        ("response", r), ("headers", vh)]) "path" = .ok (some (.str vp)) from rfl,
    except_bind_ok]
  have hpp : pathOfItem (some (.str vp)) = .ok vp := by
    unfold pathOfItem
    rw [if_neg (by simp [jsTruthy, jsTruthyV, hpne])]
    exact congrArg Except.ok (normalizePath_eq_self vp hpne hstarts)
  rw [hpp, except_bind_ok]
  rw [show objGet (.obj [("path", .str vp), ("method", .str vm), ("status", .num n),
        ("response", r), ("headers", vh)]) "status" = .ok (some (.num n)) from rfl,
    except_bind_ok]
  rw [show objGet (.obj [("path", .str vp), ("method", .str vm), ("status", .num n),
        ("response", r), ("headers", vh)]) "response" = .ok (some r) from rfl,
    except_bind_ok]
  rw [show objGet (.obj [("path", .str vp), ("method", .str vm), ("status", .num n),
        ("response", r), ("headers", vh)]) "headers" = .ok (some vh) from rfl,
    except_bind_ok]
  rw [jsOr_of_truthy _ _ (by simp [jsTruthyV, hn0]), jsOr_of_truthy _ _ hh]
  rfl

theorem mapM_loadItem_persistTable (t : Table) (h : ∀ kv ∈ t, entryDefOK kv.2) :
    (persistTable t).mapM loadItem = .ok (t.map Prod.snd) := by
  induction t with
  | nil => rfl
  | cons kv rest ih =>
    have hpc : persistTable (kv :: rest) = persistItem kv.2 :: persistTable rest := rfl
    rw [hpc, List.mapM_cons, loadItem_persistItem kv.2 (h kv (List.mem_cons_self _ _)),
      except_bind_ok, ih (fun kv2 hkv2 => h kv2 (List.mem_cons_of_mem _ hkv2)),
      except_bind_ok]
    rfl

theorem foldl_mapSet_rebuild (t : Table) (acc : Table)
    (hkeys : ∀ kv ∈ t, kv.1 = kv.2.method ++ " " ++ kv.2.path)
    (hnodup : (t.map Prod.fst).Nodup)
    (hdisj : ∀ kv ∈ t, acc.lookup kv.1 = none) :
    (t.map Prod.snd).foldl (fun acc2 d => mapSet acc2 (d.method ++ " " ++ d.path) d) acc
      = acc ++ t := by
  induction t generalizing acc with
  | nil => simp
  | cons kv rest ih =>
    obtain ⟨k0, d0⟩ := kv
    simp only [List.map_cons, List.foldl_cons]
    have hk0 : k0 = d0.method ++ " " ++ d0.path := hkeys (k0, d0) (List.mem_cons_self _ _)
    have hl0 : acc.lookup (d0.method ++ " " ++ d0.path) = none := by
      rw [← hk0]
      exact hdisj (k0, d0) (List.mem_cons_self _ _)
    rw [mapSet_of_lookup_none _ _ _ hl0]
    simp only [List.map_cons, List.nodup_cons] at hnodup
    rw [ih (acc ++ [(d0.method ++ " " ++ d0.path, d0)])
      (fun kv2 hkv2 => hkeys kv2 (List.mem_cons_of_mem _ hkv2)) hnodup.2 ?_]
    · rw [List.append_assoc, hk0]
      rfl
    · intro kv2 hkv2
      rw [lookup_append_assoc, hdisj kv2 (List.mem_cons_of_mem _ hkv2)]
      have hne2 : kv2.1 ≠ d0.method ++ " " ++ d0.path := by
        rw [← hk0]
        intro hc
        apply hnodup.1
        rw [← hc]
        exact List.mem_map_of_mem Prod.fst hkv2
      have hbeq : (kv2.1 == d0.method ++ " " ++ d0.path) = false := by
        simpa [beq_iff_eq] using hne2
      simp [List.lookup, hbeq]

/-- C4 counterexample: registering with the empty-string method stores the
entry under the key `" /x"`, but reloading its persisted record defaults
the falsy method to `GET`, so the reloaded table differs (key and method
change). -/
theorem roundtrip_changes_empty_method :
    (applyRegs [] [⟨some "/x", some "", some .null, none, none⟩]).map Prod.fst
      = [" /x"] ∧
    (loadRoutes (.parsed (.arr (persistTable
        (applyRegs [] [⟨some "/x", some "", some .null, none, none⟩])))) []).map Prod.fst
      = ["GET /x"] ∧
    loadRoutes (.parsed (.arr (persistTable
        (applyRegs [] [⟨some "/x", some "", some .null, none, none⟩])))) []
      ≠ applyRegs [] [⟨some "/x", some "", some .null, none, none⟩] := by
  refine ⟨rfl, rfl, ?_⟩
  intro hc
  have h2 := congrArg (fun t : Table => t.map Prod.fst) hc
  exact absurd h2 (by decide)

/-- C4 (amended): for every sequence of registrations whose method field,
when present, is a non-empty string and whose headers field, when present,
is truthy, persisting the resulting route table and reloading from that
snapshot rebuilds exactly the same table — same keys in the same order,
and for each key the same method, path, status, response and headers.
(Registrations with a falsy method or falsy headers are re-defaulted at
load and can change, as the counterexample shows.) -/
theorem persist_load_roundtrip (bs : List RegisterBody) (hbs : ∀ b ∈ bs, bodyOK b) :
    loadRoutes (.parsed (.arr (persistTable (applyRegs [] bs)))) [] = applyRegs [] bs := by
  have hOK : tableOK (applyRegs [] bs) :=
    tableOK_applyRegs bs [] hbs ⟨by simp, by simp⟩
  unfold loadRoutes
  dsimp only
  rw [mapM_loadItem_persistTable (applyRegs [] bs) (fun kv hk => (hOK.1 kv hk).1)]
  dsimp only
  rw [foldl_mapSet_rebuild (applyRegs [] bs) [] (fun kv hk => (hOK.1 kv hk).2) hOK.2
    (fun kv _ => rfl)]
  rfl

/-- Witness for `persist_load_roundtrip`: two concrete registrations
(an object response with status 201 and custom headers; a text response
with all defaults) survive the round trip unchanged. -/
theorem persist_load_roundtrip_witness :
    loadRoutes (.parsed (.arr (persistTable (applyRegs []
        [⟨some "/a", some "post", some .null, some (.num 201), some (.obj [("x", .str "1")])⟩,
         ⟨some "b", none, some (.str "hi"), none, none⟩])))) []
      = applyRegs []
        [⟨some "/a", some "post", some .null, some (.num 201), some (.obj [("x", .str "1")])⟩,
         ⟨some "b", none, some (.str "hi"), none, none⟩] :=
  persist_load_roundtrip
    [⟨some "/a", some "post", some .null, some (.num 201), some (.obj [("x", .str "1")])⟩,
     ⟨some "b", none, some (.str "hi"), none, none⟩]
    (by
      intro b hb
      rcases List.mem_cons.mp hb with h | h
      · subst h
        refine ⟨?_, ?_⟩
        · intro s hs
          injection hs with h2
          rw [← h2]
          decide
        · intro v hv
          injection hv with h2
          rw [← h2]
          rfl
      · rcases List.mem_cons.mp h with h | h
        · subst h
          exact ⟨fun s hs => Option.noConfusion hs, fun v hv => Option.noConfusion hv⟩
        · cases h)

/-! ### C2 — temp-file naming and atomic write -/

theorem toDigitsCore_acc (b : Nat) (f : Nat) :
    ∀ (n : Nat) (acc : List Char),
      Nat.toDigitsCore b f n acc = Nat.toDigitsCore b f n [] ++ acc := by
  induction f with
  | zero =>
    intro n acc
    rfl
  | succ f ih =>
    intro n acc
    simp only [Nat.toDigitsCore]
    by_cases h : n / b = 0
    · rw [if_pos h, if_pos h]
      rfl
    · rw [if_neg h, if_neg h]
      rw [ih (n / b) [Nat.digitChar (n % b)], ih (n / b) (Nat.digitChar (n % b) :: acc)]
      rw [List.append_assoc]
      rfl

theorem toDigitsCore_eq_digits :
    ∀ (n : Nat), n ≠ 0 → ∀ (f : Nat), n < f →
      Nat.toDigitsCore 10 f n [] = ((Nat.digits 10 n).map Nat.digitChar).reverse := by
  intro n
  induction n using Nat.strong_induction_on with
  | _ n ih =>
    intro hn f hf
    cases f with
    | zero => omega
    | succ f =>
      simp only [Nat.toDigitsCore]
      by_cases h10 : n / 10 = 0
      · rw [if_pos h10]
        have hlt : n < 10 := by omega
        rw [Nat.digits_of_lt 10 n hn hlt]
        rw [Nat.mod_eq_of_lt hlt]
        rfl
      · rw [if_neg h10]
        rw [toDigitsCore_acc]
        have hrec : n / 10 < n := Nat.div_lt_self (Nat.pos_of_ne_zero hn) (by norm_num)
        have hfr : n / 10 < f := by omega
        rw [ih (n / 10) hrec h10 f hfr]
        rw [Nat.digits_def' (by norm_num : (1 : Nat) < 10) (Nat.pos_of_ne_zero hn)]
        simp

theorem repr_eq_digits (n : Nat) (hn : n ≠ 0) :
    Nat.repr n = (((Nat.digits 10 n).map Nat.digitChar).reverse).asString := by
  unfold Nat.repr Nat.toDigits
  rw [toDigitsCore_eq_digits n hn (n + 1) (Nat.lt_succ_self n)]

theorem digitChar_inj_lt_ten :
    ∀ d1 < 10, ∀ d2 < 10, Nat.digitChar d1 = Nat.digitChar d2 → d1 = d2 := by decide

theorem digitChar_ne_zero_char : ∀ d < 10, d ≠ 0 → Nat.digitChar d ≠ '0' := by decide

theorem digitChar_ne_slash : ∀ d < 10, Nat.digitChar d ≠ '/' := by decide

theorem map_digitChar_inj :
    ∀ (l1 l2 : List Nat), (∀ d ∈ l1, d < 10) → (∀ d ∈ l2, d < 10) →
      l1.map Nat.digitChar = l2.map Nat.digitChar → l1 = l2 := by
  intro l1
  induction l1 with
  | nil =>
    intro l2 _ _ h
    cases l2 with
    | nil => rfl
    | cons b l2t => simp at h
  | cons a l ih =>
    intro l2 h1 h2 h
    cases l2 with
    | nil => simp at h
    | cons b l2t =>
      simp only [List.map_cons, List.cons.injEq] at h
      have ha := h1 a (List.mem_cons_self _ _)
      have hb := h2 b (List.mem_cons_self _ _)
      rw [digitChar_inj_lt_ten a ha b hb h.1,
        ih l2t (fun d hd => h1 d (List.mem_cons_of_mem _ hd))
          (fun d hd => h2 d (List.mem_cons_of_mem _ hd)) h.2]

theorem nat_repr_inj (a b : Nat) (h : Nat.repr a = Nat.repr b) : a = b := by
  have key : ∀ x y : Nat, x = 0 → y ≠ 0 → Nat.repr x = Nat.repr y → False := by
    intro x y hx hy hxy
    subst hx
    rw [repr_eq_digits y hy] at hxy
    have hd : (("0" : String)).data = (((Nat.digits 10 y).map Nat.digitChar).reverse) :=
      congrArg String.data hxy
    have hd2 : List.reverse ['0'] = ((Nat.digits 10 y).map Nat.digitChar).reverse.reverse :=
      congrArg List.reverse hd
    rw [List.reverse_reverse] at hd2
    have hd3 : (Nat.digits 10 y).map Nat.digitChar = ['0'] := hd2.symm
    cases hdig : Nat.digits 10 y with
    | nil => rw [hdig] at hd3; simp at hd3
    | cons d rest =>
      rw [hdig] at hd3
      simp only [List.map_cons, List.cons.injEq] at hd3
      have hrest : rest = [] := List.map_eq_nil_iff.mp hd3.2
      subst hrest
      have hdlt : d < 10 :=
        Nat.digits_lt_base (by norm_num) (by rw [hdig]; exact List.mem_cons_self _ _)
      have hy2 : y = d := by
        have := Nat.ofDigits_digits 10 y
        rw [hdig] at this
        simpa [Nat.ofDigits] using this.symm
      by_cases hd0 : d = 0
      · subst hd0
        exact hy (by omega)
      · exact digitChar_ne_zero_char d hdlt hd0 hd3.1
  by_cases ha : a = 0 <;> by_cases hb : b = 0
  · omega
  · exact absurd h (fun hc => key a b ha hb hc)
  · exact absurd h (fun hc => key b a hb ha hc.symm)
  · rw [repr_eq_digits a ha, repr_eq_digits b hb] at h
    have hd : ((Nat.digits 10 a).map Nat.digitChar).reverse
        = ((Nat.digits 10 b).map Nat.digitChar).reverse := congrArg String.data h
    have hd2 := congrArg List.reverse hd
    rw [List.reverse_reverse, List.reverse_reverse] at hd2
    have hdig := map_digitChar_inj _ _
      (fun d hd3 => Nat.digits_lt_base (by norm_num) hd3)
      (fun d hd3 => Nat.digits_lt_base (by norm_num) hd3) hd2
    exact Nat.digits.injective 10 hdig

theorem repr_no_slash (n : Nat) : '/' ∉ (Nat.repr n).data := by
  by_cases hn : n = 0
  · rw [hn]
    decide
  · rw [repr_eq_digits n hn]
    intro hmem
    have hmem2 : '/' ∈ (Nat.digits 10 n).map Nat.digitChar := List.mem_reverse.mp hmem
    obtain ⟨d, hd, hdc⟩ := List.mem_map.mp hmem2
    exact digitChar_ne_slash d (Nat.digits_lt_base (by norm_num) hd) hdc

theorem tmpName_inj (p : String) (t1 t2 : Nat) (h : t1 ≠ t2) :
    tmpName p t1 ≠ tmpName p t2 := by
  intro hc
  apply h
  unfold tmpName at hc
  have hd := congrArg String.data hc
  simp only [String.data_append] at hd
  have hd2 := List.append_cancel_right hd
  have hd3 := List.append_cancel_left hd2
  exact nat_repr_inj t1 t2 (String.ext hd3)

/-- C2 counterexample: the claim — distinct write attempts always get
distinct temp-file names — fails: two attempts with different payloads in
the same millisecond are distinct attempts (their file operations differ)
yet share the temp name. -/
theorem tmpName_collision :
    ¬ (∀ (d1 d2 : List JSValue) (t1 t2 : Nat),
        atomicWriteFile "./data.json" d1 t1 ≠ atomicWriteFile "./data.json" d2 t2 →
        tmpName "./data.json" t1 ≠ tmpName "./data.json" t2) := by
  intro hclaim
  apply hclaim [JSValue.null] [] 1700000000000 1700000000000 ?_ rfl
  intro hc
  simp [atomicWriteFile] at hc

/-- C2 amended: every persistence write emits exactly a write of the
serialized full table to `` `${path}.${Date.now()}.tmp` `` — the target
path extended by a slash-free suffix, hence a file in the target's
directory — followed by a rename of that file over the target.  The name
is unique per millisecond timestamp (attempts with different `Date.now()`
readings cannot collide) but not per attempt: attempts within the same
millisecond share it. -/
theorem atomicWrite_spec (dataFile : String) (t : Table) (t1 t2 : Nat) (h : t1 ≠ t2) :
    persistRoutes dataFile t t1
      = [.write (tmpName dataFile t1) (persistTable t),
         .rename (tmpName dataFile t1) dataFile] ∧
    (∃ suffix : String, tmpName dataFile t1 = dataFile ++ suffix ∧ '/' ∉ suffix.data) ∧
    tmpName dataFile t1 ≠ tmpName dataFile t2 := by
  refine ⟨rfl, ⟨"." ++ Nat.repr t1 ++ ".tmp", ?_, ?_⟩, tmpName_inj dataFile t1 t2 h⟩
  · unfold tmpName
    rw [String.append_assoc, String.append_assoc, String.append_assoc]
  · intro hmem
    simp only [String.data_append, List.mem_append] at hmem
    rcases hmem with (hmem | hmem) | hmem
    · exact absurd hmem (by decide)
    · exact repr_no_slash t1 hmem
    · exact absurd hmem (by decide)

/-- Witness for `atomicWrite_spec` at a concrete file, table and pair of
timestamps. -/
theorem atomicWrite_spec_witness :
    persistRoutes "./data.json" [] 1700000000000
      = [.write "./data.json.1700000000000.tmp" [],
         .rename "./data.json.1700000000000.tmp" "./data.json"] ∧
    tmpName "./data.json" 1700000000000 ≠ tmpName "./data.json" 1700000000001 :=
  ⟨(atomicWrite_spec "./data.json" [] 1700000000000 1700000000001 (by omega)).1,
   (atomicWrite_spec "./data.json" [] 1700000000000 1700000000001 (by omega)).2.2⟩
